import Mathlib

/-!
Verification development for the DNDice dice-notation parser and roller
(`dice.py`).  The Python functions are shallowly embedded as executable Lean
definitions.  The random die source (`secrets.randbelow`) is modelled as an
arbitrary stream `ds : Nat → Nat` together with an explicit draw index: the
k-th draw of a die with `sides` faces yields `1 + ds k % sides`, and every
roll advances the index by one, so the index difference counts exactly how
many draws a call consumed.  Fallible functions return `Except`; on failure
the error carries the draw index at the moment the Python code raises, so
partial draws made before an error stay observable.
-/

deriving instance DecidableEq for Except

namespace DnDice

/-- Typed rendering of the `ValueError` messages raised in `dice.py`.
`invalidDice` is the message "Invalid dice notation: {s}" (raised both by
`parse_dice_only` and at the end of `parse_roll_command`; the spec calls the
former kind `InvalidToken` and the latter `InvalidNotation`), `countRange`
is "Dice count must be 1-100" (`DiceCountOutOfRange`), `sidesRange` is
"Dice sides must be 1-1000" (`DiceSidesOutOfRange`), `invalidToken` is
"Invalid token: {s}" (`InvalidToken`), `repeatRange` is "Repeat count must
be 1-20" (`RepeatCountOutOfRange`), `putDiceFirst` is "Put dice notation
before modifier: e.g., 2d6+3" (an `InvalidNotation` kind),
`invalidAfterCount` is "Invalid notation after count: {s}", `charCountRange`
is "Count must be 1-20", `intParseFail` models the `ValueError` raised by
Python `int()` on a non-integer literal, and `invalidCount` is
"Invalid count: {s}". -/
inductive DiceError where
  | invalidDice (s : String)
  | countRange
  | sidesRange
  | invalidToken (s : String)
  | repeatRange
  | putDiceFirst
  | invalidAfterCount (s : String)
  | charCountRange
  | intParseFail (s : String)
  | invalidCount (s : String)
deriving Repr, DecidableEq

/-- Numeric value of a list of decimal digit characters (`int()` on digits). -/
def digitsVal (cs : List Char) : Nat :=
  cs.foldl (fun a c => 10 * a + (c.toNat - 48)) 0

/-- Python `str.lower()` (ASCII): lowercase every character. -/
def pyLower (s : String) : String :=
  String.mk (s.toList.map Char.toLower)

/-- Python `str.upper()` (ASCII): uppercase every character. -/
def pyUpper (s : String) : String :=
  String.mk (s.toList.map Char.toUpper)

/-- Python `str.strip()`: drop whitespace from both ends. -/
def stripChars (cs : List Char) : List Char :=
  ((cs.dropWhile Char.isWhitespace).reverse.dropWhile Char.isWhitespace).reverse

/-- Python `str.strip()` on strings. -/
def pyStrip (s : String) : String :=
  String.mk (stripChars s.toList)

/-- Python `int(token)` on a whitespace-free token: optional sign followed by
one or more decimal digits. -/
def pyInt : List Char → Option Int
  | [] => none
  | '+' :: rest =>
    if rest ≠ [] ∧ rest.all (·.isDigit) then some (digitsVal rest) else none
  | '-' :: rest =>
    if rest ≠ [] ∧ rest.all (·.isDigit) then some (-(digitsVal rest : Int)) else none
  | cs =>
    if cs.all (·.isDigit) then some (digitsVal cs) else none

/-- Python `str.isdigit()` restricted to ASCII: nonempty and all digits. -/
def pyIsdigit (t : String) : Bool :=
  !t.toList.isEmpty && t.toList.all (·.isDigit)

/-- `expression.replace(" ", "")`: remove ASCII spaces. -/
def removeSpaces (s : String) : String :=
  String.mk (s.toList.filter (· ≠ ' '))

/-- Python `'d' in token.lower()`. -/
def containsD (t : String) : Bool :=
  (pyLower t).toList.contains 'd'

/-- Worker for `tokenize`: accumulates the current run of ordinary characters
(in reverse) and emits `'+'`/`'-'` as single-character tokens, splitting on
whitespace, exactly as `re.sub(r'([+-])', r' \1 ', expr).split()` does. -/
def tokenizeAux : List Char → List Char → List String
  | [], acc => if acc.isEmpty then [] else [String.mk acc.reverse]
  | c :: rest, acc =>
    if c = '+' ∨ c = '-' then
      (if acc.isEmpty then [] else [String.mk acc.reverse]) ++
        [String.mk [c]] ++ tokenizeAux rest []
    else if c.isWhitespace then
      (if acc.isEmpty then [] else [String.mk acc.reverse]) ++ tokenizeAux rest []
    else
      tokenizeAux rest (c :: acc)

/-- Tokenization used by `roll_dice` and `roll_dmg`:
`re.sub(r'([+-])', r' \1 ', expression)` followed by `.split()`. -/
def tokenize (s : String) : List String :=
  tokenizeAux s.toList []

/-- Core of `parse_dice_only` on the lowercased, stripped character list:
the regex `^(\d*)d(\d+)$` matches exactly when everything before the first
`d` is digits and everything after it is a nonempty run of digits. -/
def parseDiceChars (cs : List Char) : Except DiceError (Nat × Nat) :=
  let pre := cs.takeWhile (fun c => c != 'd')
  match cs.dropWhile (fun c => c != 'd') with
  | [] => .error (.invalidDice (String.mk cs))
  | _ :: after =>
    if pre.all (·.isDigit) && !after.isEmpty && after.all (·.isDigit) then
      let diceCount := if pre.isEmpty then 1 else digitsVal pre
      let diceSides := digitsVal after
      if diceCount < 1 ∨ diceCount > 100 then .error .countRange
      else if diceSides < 1 ∨ diceSides > 1000 then .error .sidesRange
      else .ok (diceCount, diceSides)
    else .error (.invalidDice (String.mk cs))

/-- `parse_dice_only(notation)`: after lowercasing and stripping, match
`^(\d*)d(\d+)$`; a missing count defaults to 1; count must lie in [1,100]
and sides in [1,1000]. -/
def parseDiceOnly (t : String) : Except DiceError (Nat × Nat) :=
  parseDiceChars (pyStrip (pyLower t)).toList

/-- `roll_single_die(sides)` as the k-th draw from stream `ds`:
a value in `[1, sides]` (for `sides ≥ 1`). -/
def rollSingleDie (ds : Nat → Nat) (sides : Nat) (k : Nat) : Int :=
  1 + (ds k % sides : Nat)

/-- `[roll_single_die(sides) for _ in range(count)]` starting at draw index
`k`; returns the rolls in draw order and the next free index. -/
def rollPool (ds : Nat → Nat) (sides : Nat) : Nat → Nat → List Int × Nat
  | 0, k => ([], k)
  | c + 1, k =>
    let r := rollSingleDie ds sides k
    let rest := rollPool ds sides c (k + 1)
    (r :: rest.1, rest.2)

/-- The token loop of `roll_dice`: threads the pending sign (`current_sign`)
and the draw index; returns the dice pools in encounter order, the net flat
modifier and the final draw index, or the error together with the draw index
at the moment the Python code raises. -/
def rollDiceLoop (ds : Nat → Nat) :
    List String → Int → Nat →
    Except (DiceError × Nat) (List (String × List Int) × Int × Nat)
  | [], _, k => .ok ([], 0, k)
  | t :: ts, s, k =>
    if t = "+" then rollDiceLoop ds ts 1 k
    else if t = "-" then rollDiceLoop ds ts (-1) k
    else if containsD t then
      match parseDiceOnly t with
      | .error e => .error (e, k)
      | .ok cs =>
        let pr := rollPool ds cs.2 cs.1 k
        match rollDiceLoop ds ts 1 pr.2 with
        | .error e => .error e
        | .ok (pools, m, k2) => .ok ((t, pr.1) :: pools, m, k2)
    else
      match pyInt t.toList with
      | none => .error (.invalidToken t, k)
      | some v =>
        match rollDiceLoop ds ts 1 k with
        | .error e => .error e
        | .ok (pools, m, k2) => .ok (pools, m + s * v, k2)

/-- `RollResult` dataclass: expression, dice pools `(notation, base rolls)`,
net flat modifier, and per-pool modified rolls. -/
structure RollResult where
  expression : String
  dice_pools : List (String × List Int)
  modifier : Int
  modified_rolls : List (List Int)
deriving Repr, DecidableEq

/-- `DmgResult` dataclass: expression, components
`(notation, rolls, subtotal)`, flat modifier, and grand total. -/
structure DmgResult where
  expression : String
  components : List (String × List Int × Int)
  modifier : Int
  total : Int
deriving Repr, DecidableEq

/-- `roll_dice(expression)` with explicit draw stream and start index. -/
def rollDice (ds : Nat → Nat) (expression : String) (k : Nat) :
    Except (DiceError × Nat) (RollResult × Nat) :=
  let e := removeSpaces expression
  match rollDiceLoop ds (tokenize e) 1 k with
  | .error ek => .error ek
  | .ok (pools, m, k2) =>
    .ok ({ expression := e, dice_pools := pools, modifier := m,
           modified_rolls := pools.map (fun p => p.2.map (fun r => r + m)) }, k2)

/-- The token loop of `roll_dmg`: like `rollDiceLoop` but each dice pool also
records its subtotal, and the running total accumulates `sign * subtotal`
for dice terms and `sign * value` for flat integers. -/
def rollDmgLoop (ds : Nat → Nat) :
    List String → Int → Nat →
    Except (DiceError × Nat) (List (String × List Int × Int) × Int × Int × Nat)
  | [], _, k => .ok ([], 0, 0, k)
  | t :: ts, s, k =>
    if t = "+" then rollDmgLoop ds ts 1 k
    else if t = "-" then rollDmgLoop ds ts (-1) k
    else if containsD t then
      match parseDiceOnly t with
      | .error e => .error (e, k)
      | .ok cs =>
        let pr := rollPool ds cs.2 cs.1 k
        match rollDmgLoop ds ts 1 pr.2 with
        | .error e => .error e
        | .ok (comps, m, tot, k2) =>
          .ok ((t, pr.1, pr.1.sum) :: comps, m, tot + s * pr.1.sum, k2)
    else
      match pyInt t.toList with
      | none => .error (.invalidToken t, k)
      | some v =>
        match rollDmgLoop ds ts 1 k with
        | .error e => .error e
        | .ok (comps, m, tot, k2) => .ok (comps, m + s * v, tot + s * v, k2)

/-- `roll_dmg(expression)` with explicit draw stream and start index. -/
def rollDmg (ds : Nat → Nat) (expression : String) (k : Nat) :
    Except (DiceError × Nat) (DmgResult × Nat) :=
  let e := removeSpaces expression
  match rollDmgLoop ds (tokenize e) 1 k with
  | .error ek => .error ek
  | .ok (comps, m, tot, k2) =>
    .ok ({ expression := e, components := comps, modifier := m, total := tot }, k2)

/-- Grand total of a `RollResult` as computed by the advantage selector:
`sum(sum(pool) for pool in modified_rolls)`. -/
def grandTotal (r : RollResult) : Int :=
  (r.modified_rolls.map List.sum).sum

/-- `roll_with_advantage(expression)`: evaluate `roll_dice` twice (the second
call draws from the stream where the first stopped), pick the roll with the
higher grand total (ties favor the first), and return the max total. -/
def rollWithAdvantage (ds : Nat → Nat) (expression : String) (k : Nat) :
    Except (DiceError × Nat) ((RollResult × RollResult × RollResult × Int) × Nat) :=
  match rollDice ds expression k with
  | .error e => .error e
  | .ok (roll1, k1) =>
    match rollDice ds expression k1 with
    | .error e => .error e
    | .ok (roll2, k2) =>
      let total1 := grandTotal roll1
      let total2 := grandTotal roll2
      .ok ((roll1, roll2, if total1 ≥ total2 then roll1 else roll2,
            max total1 total2), k2)

/-- `roll_with_disadvantage(expression)`: like advantage but keeps the lower
grand total (ties favor the first roll). -/
def rollWithDisadvantage (ds : Nat → Nat) (expression : String) (k : Nat) :
    Except (DiceError × Nat) ((RollResult × RollResult × RollResult × Int) × Nat) :=
  match rollDice ds expression k with
  | .error e => .error e
  | .ok (roll1, k1) =>
    match rollDice ds expression k1 with
    | .error e => .error e
    | .ok (roll2, k2) =>
      let total1 := grandTotal roll1
      let total2 := grandTotal roll2
      .ok ((roll1, roll2, if total1 ≤ total2 then roll1 else roll2,
            min total1 total2), k2)

/-- The body of `roll_character_stats`' loop, run `n` times from draw index
`k`: each iteration rolls four d6, sorts them ascending (Python `sorted`) and
sums all but the lowest. -/
def rollStatsLoop (ds : Nat → Nat) : Nat → Nat → List (List Int × Int) × Nat
  | 0, k => ([], k)
  | n + 1, k =>
    let pr := rollPool ds 6 4 k
    let sorted_rolls := List.insertionSort (fun a b => a ≤ b) pr.1
    let stat_total := (sorted_rolls.drop 1).sum
    let rest := rollStatsLoop ds n pr.2
    ((pr.1, stat_total) :: rest.1, rest.2)

/-- `roll_character_stats()`: six ability scores via 4d6-drop-lowest. -/
def rollCharacterStats (ds : Nat → Nat) (k : Nat) : List (List Int × Int) × Nat :=
  rollStatsLoop ds 6 k

/-- Python `args.split()`: split on runs of whitespace, dropping empties. -/
def pySplitAux : List Char → List Char → List String
  | [], acc => if acc.isEmpty then [] else [String.mk acc.reverse]
  | c :: rest, acc =>
    if c.isWhitespace then
      (if acc.isEmpty then [] else [String.mk acc.reverse]) ++ pySplitAux rest []
    else
      pySplitAux rest (c :: acc)

/-- Python `args.split()`. -/
def pySplit (s : String) : List String :=
  pySplitAux s.toList []

/-- Regex `^[+-]\d+$`: a sign character followed by one or more digits. -/
def matchSignedInt : List Char → Bool
  | c :: rest => (c = '+' ∨ c = '-') && !rest.isEmpty && rest.all (·.isDigit)
  | [] => false

/-- `re.sub(r'(?<![0-9])d', '1d', expr, flags=re.IGNORECASE)`: replace each
`d`/`D` not preceded by a digit (in the original string) with `1d`. -/
def insertImplicitOneAux : Option Char → List Char → List Char
  | _, [] => []
  | prev, c :: rest =>
    let prevNotDigit : Bool := match prev with
                               | some p => !p.isDigit
                               | none => true
    if (c = 'd' ∨ c = 'D') ∧ prevNotDigit then
      '1' :: 'd' :: insertImplicitOneAux (some c) rest
    else
      c :: insertImplicitOneAux (some c) rest

/-- Normalize a bare `d20` to `1d20` (see `insertImplicitOneAux`). -/
def insertImplicitOne (s : String) : String :=
  String.mk (insertImplicitOneAux none s.toList)

/-- The token-based tail of `parse_roll_command` (from `tokens = args.split()`
on): bare-integer repeat count, else dice expression, else error. -/
def rollCommandTokens (args normalized : String) : Except DiceError (Nat × String) :=
  match pySplit args with
  | [] => .error (.invalidDice args)
  | first_token :: restToks =>
    if pyIsdigit first_token then
      let repeat_count := digitsVal first_token.toList
      if repeat_count < 1 ∨ repeat_count > 20 then .error .repeatRange
      else if restToks.isEmpty then .ok (repeat_count, "1d20")
      else
        let rest := removeSpaces (String.join restToks)
        if matchSignedInt rest.toList then .ok (repeat_count, "1d20" ++ rest)
        else if containsD rest then .ok (repeat_count, rest)
        else .error (.invalidAfterCount rest)
    else if containsD first_token then
      .ok (1, insertImplicitOne normalized)
    else
      .error (.invalidDice args)

/-- `parse_roll_command(args)`: repeat count plus canonical dice expression
with smart defaults (empty input rolls one d20, a pure signed integer is a
modifier on 1d20, a leading bare integer is a repeat count). -/
def parseRollCommand (args0 : String) : Except DiceError (Nat × String) :=
  let args := pyStrip args0
  if args = "" then .ok (1, "1d20")
  else
    let normalized := removeSpaces args
    if matchSignedInt normalized.toList then .ok (1, "1d20" ++ normalized)
    else
      match args.toList with
      | [] => .error (.invalidDice args)
      | c :: rest =>
        if c = '+' ∨ c = '-' then
          -- re.match(r'^([+-])\s*(\d+)(.*)$', args)
          let afterWs := rest.dropWhile (·.isWhitespace)
          let digits := afterWs.takeWhile (·.isDigit)
          if digits.isEmpty then rollCommandTokens args normalized
          else
            let restStr := pyStrip (String.mk (afterWs.dropWhile (·.isDigit)))
            if restStr = "" then
              .ok (1, "1d20" ++ String.mk [c] ++ String.mk digits)
            else if containsD restStr then
              .error .putDiceFirst
            else
              rollCommandTokens args normalized
        else
          rollCommandTokens args normalized

/-- The `try` body of `parse_char_command`: `int(args)` then the range
check; its range failure is `charCountRange` ("Count must be 1-20"). -/
def parseCharBody (a : String) : Except DiceError Int :=
  match pyInt a.toList with
  | none => .error (.intParseFail a)
  | some n =>
    if n < 1 ∨ n > 20 then .error .charCountRange
    else .ok n

/-- `parse_char_command(args)`: empty input defaults to 1; every
`ValueError` raised inside the `try` block — including the range check's
own — is caught and replaced by "Invalid count: {args}". -/
def parseCharCommand (args0 : String) : Except DiceError Int :=
  let a := pyStrip args0
  if a = "" then .ok 1
  else
    match parseCharBody a with
    | .ok n => .ok n
    | .error _ => .error (.invalidCount a)

/-- `RollResult._get_sides`: `re.search(r'd(\d+)', notation.lower())`, the
digits after the first `d` that is followed by at least one digit (0 when
there is no match). -/
def searchSides : List Char → Nat
  | [] => 0
  | c :: rest =>
    if c = 'd' ∧ ¬ (rest.takeWhile (·.isDigit)).isEmpty then
      digitsVal (rest.takeWhile (·.isDigit))
    else
      searchSides rest

/-- Die sides extracted from a pool's dice text (see `searchSides`). -/
def getSides (nota : String) : Nat :=
  searchSides (pyLower nota).toList

/-- `"+" if self.modifier > 0 else ""`. -/
def modSignStr (m : Int) : String :=
  if m > 0 then "+" else ""

/-- One die in `format`'s unmodified path (`self.modifier == 0`): a d20 face
of 20 renders bold, a d20 face of 1 renders as bold `Nat1`, anything else as
a plain number. -/
def formatDieNoMod (sides : Nat) (r : Int) : String :=
  if sides = 20 ∧ r = 20 then "**20**"
  else if sides = 20 ∧ r = 1 then "**Nat1**"
  else toString r

/-- One die in `format`'s modified path: the triple of base text,
calculation text and result text built in the loop of lines 62-74 of
`dice.py`.  A d20 face of 20 keeps the modifier applied to the shown result;
a d20 face of 1 suppresses the modifier entirely. -/
def formatDieMod (sides : Nat) (m : Int) (r rmod : Int) : String × String × String :=
  if sides = 20 ∧ r = 20 then
    ("**20**", "(**20**" ++ modSignStr m ++ toString m ++ ")",
     "**" ++ toString rmod ++ "**")
  else if sides = 20 ∧ r = 1 then
    ("**Nat1**", "(**Nat1**)", "**Nat1**")
  else
    (toString r, "(" ++ toString r ++ modSignStr m ++ toString m ++ ")",
     toString rmod)

/-- One pool's line in `format`'s unmodified path. -/
def formatPoolNoMod (nota : String) (rolls : List Int) : String :=
  let sides := getSides nota
  let fr := rolls.map (fun r => formatDieNoMod sides r)
  pyUpper nota ++ " Result - (" ++ String.intercalate ", " fr ++ ")"

/-- One pool's line in `format`'s modified path.  Python walks the base
rolls by index into `modified_rolls[idx]`; the zip realizes that pairing
(the lists have equal length for every result `roll_dice` builds). -/
def formatPoolMod (m : Int) (nota : String) (rolls modified : List Int) : String :=
  let sides := getSides nota
  let parts := (rolls.zip modified).map (fun p => formatDieMod sides m p.1 p.2)
  pyUpper nota ++ " Result - (" ++
    String.intercalate ", " (parts.map (fun x => x.1)) ++ ") = " ++
    String.intercalate " " (parts.map (fun x => x.2.1)) ++ " = (" ++
    String.intercalate ", " (parts.map (fun x => x.2.2)) ++ ")"

/-- `RollResult.format()`. -/
def RollResult.format (res : RollResult) : String :=
  if res.modifier = 0 then
    String.intercalate "\n" (res.dice_pools.map (fun p => formatPoolNoMod p.1 p.2))
  else
    String.intercalate "\n"
      ((res.dice_pools.zip res.modified_rolls).map
        (fun q => formatPoolMod res.modifier q.1.1 q.1.2 q.2))

/-- `RollResult._format_roll(base_roll, modified_roll, sides)` (defined on
the dataclass; `format` itself inlines the same logic). -/
def formatRollSingle (base_roll modified_roll : Int) (sides : Nat) : String :=
  if sides = 20 ∧ base_roll = 20 then "**" ++ toString modified_roll ++ "**"
  else if sides = 20 ∧ base_roll = 1 then "**Nat1**"
  else toString modified_roll

/-- `DmgResult.format()`. -/
def DmgResult.format (res : DmgResult) : String :=
  let parts := res.components.map
    (fun c => "(" ++ String.intercalate ", " (c.2.1.map toString) ++ ")")
  let parts := if res.modifier ≠ 0 then
      parts ++ ["[" ++ (if res.modifier > 0 then "+" else "") ++
                toString res.modifier ++ "]"]
    else parts
  String.intercalate " + " parts ++ " = " ++ toString res.total

/-! ## Theorems -/

/-- C9: the empty expression is accepted, not rejected: `roll_dice("")`
returns a `RollResult` with no dice pools, modifier 0 and no modified rolls,
`roll_dmg("")` returns a `DmgResult` with no components, modifier 0 and
total 0, and neither call draws from the random die source (the final draw
index equals the initial one), for every die stream and start index. -/
theorem empty_expression_accepted (ds : Nat → Nat) (k : Nat) :
    rollDice ds "" k =
      .ok ({ expression := "", dice_pools := [], modifier := 0,
             modified_rolls := [] }, k) ∧
    rollDmg ds "" k =
      .ok ({ expression := "", components := [], modifier := 0,
             total := 0 }, k) :=
  ⟨rfl, rfl⟩

/-- C1 counterexample: on the expression `"1d6+x"` (a valid dice term
followed by a malformed token), `roll_dice` starting at draw index 0 fails
with the documented `Invalid token` error but at draw index 1: exactly one
die was drawn from the random source before the error, so the call did
produce a partial random draw, contradicting the claim that no draw is
taken during a failing call.  `roll_dmg` behaves identically. -/
theorem eager_validation_cex :
    rollDice (fun _ => 0) "1d6+x" 0 = .error (.invalidToken "x", 1) ∧
    rollDmg (fun _ => 0) "1d6+x" 0 = .error (.invalidToken "x", 1) ∧
    (1 : Nat) ≠ 0 :=
  ⟨rfl, rfl, by decide⟩

/-- C1 amended: a malformed token still makes `roll_dice` and `roll_dmg`
fail with the documented error, and zero dice are rolled whenever the
malformed token is the first term of the expression (in particular for the
spec's out-of-range examples `0d6`, `101d6`, `1d0`, `1d1001`); but when
valid dice terms precede the malformed token, those dice ARE drawn from the
random source before the error: validation is interleaved with rolling, not
eager.  The draw index in each error records the number of draws taken. -/
theorem eager_validation_amended (ds : Nat → Nat) (k : Nat) :
    rollDice ds "0d6" k = .error (.countRange, k) ∧
    rollDice ds "101d6" k = .error (.countRange, k) ∧
    rollDice ds "1d0" k = .error (.sidesRange, k) ∧
    rollDice ds "1d1001" k = .error (.sidesRange, k) ∧
    rollDice ds "x" k = .error (.invalidToken "x", k) ∧
    rollDmg ds "0d6" k = .error (.countRange, k) ∧
    rollDmg ds "101d6" k = .error (.countRange, k) ∧
    rollDmg ds "1d0" k = .error (.sidesRange, k) ∧
    rollDmg ds "1d1001" k = .error (.sidesRange, k) ∧
    rollDmg ds "x" k = .error (.invalidToken "x", k) ∧
    rollDice ds "1d6+x" k = .error (.invalidToken "x", k + 1) ∧
    rollDmg ds "1d6+x" k = .error (.invalidToken "x", k + 1) ∧
    rollDice ds "2d6+0d6" k = .error (.countRange, k + 2) ∧
    rollDmg ds "2d6+0d6" k = .error (.countRange, k + 2) :=
  ⟨rfl, rfl, rfl, rfl, rfl, rfl, rfl, rfl, rfl, rfl, rfl, rfl, rfl, rfl⟩

/-- If `dropWhile p l` starts with `c`, then `p c = false`. -/
theorem dropWhile_head_false {α : Type} {p : α → Bool} :
    ∀ {l : List α} {c : α} {cs : List α}, l.dropWhile p = c :: cs → p c = false := by
  intro l
  induction l with
  | nil => intro c cs h; simp [List.dropWhile] at h
  | cons a as ih =>
    intro c cs h
    rw [List.dropWhile_cons] at h
    by_cases hp : p a = true
    · rw [if_pos hp] at h
      exact ih h
    · rw [if_neg hp] at h
      cases h
      simpa using hp

/-- Digit characters are not `'d'`, so they pass the `takeWhile`/`dropWhile`
predicate of `parseDiceChars`. -/
theorem digit_bne_d {x : Char} (hx : x.isDigit = true) : (x != 'd') = true := by
  revert hx
  simp only [Char.isDigit, bne_iff_ne, ne_eq, decide_eq_true_eq, Bool.and_eq_true]
  intro h hxd
  subst hxd
  revert h
  decide

/-- On a character list decomposed at its first `d` into digit runs,
`parseDiceChars` reduces to the two range checks. -/
theorem parseDiceChars_decomp (a b : List Char)
    (ha : ∀ x ∈ a, x.isDigit = true) (hb : b ≠ [])
    (hball : ∀ x ∈ b, x.isDigit = true) :
    parseDiceChars (a ++ 'd' :: b) =
      (if (if a.isEmpty then 1 else digitsVal a) < 1 ∨
          (if a.isEmpty then 1 else digitsVal a) > 100 then .error .countRange
       else if digitsVal b < 1 ∨ digitsVal b > 1000 then .error .sidesRange
       else .ok (if a.isEmpty then 1 else digitsVal a, digitsVal b)) := by
  have hpa : ∀ x ∈ a, (x != 'd') = true := fun x hx => digit_bne_d (ha x hx)
  have htake : (a ++ 'd' :: b).takeWhile (fun c => c != 'd') = a := by
    rw [List.takeWhile_append_of_pos hpa, List.takeWhile_cons]
    simp
  have hdrop : (a ++ 'd' :: b).dropWhile (fun c => c != 'd') = 'd' :: b := by
    rw [List.dropWhile_append_of_pos hpa, List.dropWhile_cons]
    simp
  simp only [parseDiceChars, htake, hdrop]
  have hcond : (a.all (·.isDigit) && !b.isEmpty && b.all (·.isDigit)) = true := by
    simp only [Bool.and_eq_true, List.all_eq_true, Bool.not_eq_true']
    exact ⟨⟨ha, by simpa [List.isEmpty_iff] using hb⟩, hball⟩
  rw [if_pos hcond]

/-- Forward characterization: a successful `parseDiceChars` yields the
regex decomposition with in-range count and sides. -/
theorem parseDiceChars_ok {cs : List Char} {c s : Nat}
    (h : parseDiceChars cs = .ok (c, s)) :
    ∃ a b, cs = a ++ 'd' :: b ∧ (∀ x ∈ a, x.isDigit = true) ∧ b ≠ [] ∧
      (∀ x ∈ b, x.isDigit = true) ∧
      c = (if a = [] then 1 else digitsVal a) ∧ s = digitsVal b ∧
      1 ≤ c ∧ c ≤ 100 ∧ 1 ≤ s ∧ s ≤ 1000 := by
  unfold parseDiceChars at h
  cases hdrop : cs.dropWhile (fun c => c != 'd') with
  | nil => rw [hdrop] at h; simp at h
  | cons hd after =>
    rw [hdrop] at h
    have hhd : hd = 'd' := by
      have hf := dropWhile_head_false hdrop
      simpa using hf
    subst hhd
    simp only at h
    by_cases hcond : ((cs.takeWhile (fun c => c != 'd')).all (·.isDigit) &&
        !after.isEmpty && after.all (·.isDigit)) = true
    · rw [if_pos hcond] at h
      simp only [Bool.and_eq_true, List.all_eq_true, Bool.not_eq_true',
        List.isEmpty_eq_false] at hcond
      obtain ⟨⟨hpre, hne⟩, haft⟩ := hcond
      by_cases h1 : ((if (cs.takeWhile (fun c => c != 'd')).isEmpty then 1
          else digitsVal (cs.takeWhile (fun c => c != 'd'))) < 1 ∨
          (if (cs.takeWhile (fun c => c != 'd')).isEmpty then 1
          else digitsVal (cs.takeWhile (fun c => c != 'd'))) > 100)
      · rw [if_pos h1] at h; simp at h
      · rw [if_neg h1] at h
        by_cases h2 : (digitsVal after < 1 ∨ digitsVal after > 1000)
        · rw [if_pos h2] at h; simp at h
        · rw [if_neg h2] at h
          have hcv : c = (if (cs.takeWhile (fun c => c != 'd')).isEmpty then 1
              else digitsVal (cs.takeWhile (fun c => c != 'd'))) ∧
              s = digitsVal after := by
            cases h; exact ⟨rfl, rfl⟩
          obtain ⟨hcv, hsv⟩ := hcv
          refine ⟨cs.takeWhile (fun c => c != 'd'), after, ?_, hpre, hne, haft,
            ?_, hsv, ?_, ?_, ?_, ?_⟩
          · conv_lhs => rw [← List.takeWhile_append_dropWhile (fun c => c != 'd') cs]
            rw [hdrop]
          · rw [hcv]
            by_cases he : cs.takeWhile (fun c => c != 'd') = [] <;>
              simp [he, List.isEmpty_iff]
          · omega
          · omega
          · omega
          · omega
    · rw [if_neg hcond] at h; simp at h

/-- C5: `parse_dice_only` accepts exactly the tokens matching
`^(\d*)d(\d+)$` case-insensitively after trimming — success is equivalent
to a decomposition of the lowercased, stripped text into an all-digit
(possibly empty, defaulting the count to 1) run, a `d`, and a nonempty
all-digit run, with count in [1,100] and sides in [1,1000].  `"2d6"` parses
to (2,6) and `"d20"` to (1,20) at this layer; a matching token with count
outside [1,100] fails with the Dice-count range error, one with sides
outside [1,1000] fails with the Dice-sides range error, and non-matching
tokens fail with the invalid-notation error naming the offending text. -/
theorem parse_dice_only_spec :
    (∀ (t : String) (c s : Nat),
      parseDiceOnly t = .ok (c, s) ↔
      ∃ a b : List Char,
        (pyStrip (pyLower t)).toList = a ++ 'd' :: b ∧
        (∀ x ∈ a, x.isDigit = true) ∧ b ≠ [] ∧ (∀ x ∈ b, x.isDigit = true) ∧
        c = (if a = [] then 1 else digitsVal a) ∧ s = digitsVal b ∧
        1 ≤ c ∧ c ≤ 100 ∧ 1 ≤ s ∧ s ≤ 1000) ∧
    parseDiceOnly "2d6" = .ok (2, 6) ∧
    parseDiceOnly "d20" = .ok (1, 20) ∧
    parseDiceOnly "2D6" = .ok (2, 6) ∧
    parseDiceOnly " 2d6 " = .ok (2, 6) ∧
    parseDiceOnly "0d6" = .error .countRange ∧
    parseDiceOnly "101d6" = .error .countRange ∧
    parseDiceOnly "1d0" = .error .sidesRange ∧
    parseDiceOnly "1d1001" = .error .sidesRange ∧
    parseDiceOnly "2dd6" = .error (.invalidDice "2dd6") ∧
    parseDiceOnly "foo" = .error (.invalidDice "foo") ∧
    parseDiceOnly "2d6+1" = .error (.invalidDice "2d6+1") := by
  refine ⟨?_, rfl, rfl, rfl, rfl, rfl, rfl, rfl, rfl, rfl, rfl, rfl⟩
  intro t c s
  constructor
  · intro h
    exact parseDiceChars_ok h
  · rintro ⟨a, b, hab, ha, hb, hball, hc, hs, h1, h2, h3, h4⟩
    unfold parseDiceOnly
    rw [hab, parseDiceChars_decomp a b ha hb hball]
    have hcv : (if a.isEmpty then 1 else digitsVal a) = c := by
      by_cases he : a = [] <;> simp [he, List.isEmpty_iff] at hc ⊢ <;> omega
    rw [hcv, ← hs]
    rw [if_neg (by omega), if_neg (by omega)]

/-- Witness for C5: instantiating the characterization at the concrete
token `"2d6"` produces its regex decomposition. -/
theorem parse_dice_only_spec_witness :
    ∃ a b : List Char,
      (pyStrip (pyLower "2d6")).toList = a ++ 'd' :: b ∧
      (∀ x ∈ a, x.isDigit = true) ∧ b ≠ [] ∧ (∀ x ∈ b, x.isDigit = true) ∧
      2 = (if a = [] then 1 else digitsVal a) ∧ 6 = digitsVal b ∧
      1 ≤ 2 ∧ 2 ≤ 100 ∧ 1 ≤ 6 ∧ 6 ≤ 1000 :=
  (parse_dice_only_spec.1 "2d6" 2 6).mp rfl

/-- C4: the case table of `parse_roll_command`: empty input defaults to one
d20; a pure signed integer becomes a modifier on 1d20; a bare integer N in
[1,20] is a repeat count — alone giving `1d20`, with a following signed
integer giving `1d20` plus that modifier, with a following dice expression
giving the remaining tokens concatenated without whitespace; N outside
[1,20] fails with the repeat-range error; a first token containing `d`
gives repeat 1 with an implicit count 1 inserted before a bare `d`; and a
leading signed integer followed by dice tokens fails with the
put-dice-first error (an `InvalidNotation` kind). -/
theorem parse_roll_command_spec :
    parseRollCommand "" = .ok (1, "1d20") ∧
    parseRollCommand "+3" = .ok (1, "1d20+3") ∧
    parseRollCommand "-5" = .ok (1, "1d20-5") ∧
    parseRollCommand "+ 3" = .ok (1, "1d20+3") ∧
    (∀ n ∈ Finset.Icc 1 20,
      parseRollCommand (toString n) = .ok (n, "1d20") ∧
      parseRollCommand (toString n ++ " +2") = .ok (n, "1d20+2") ∧
      parseRollCommand (toString n ++ " -4") = .ok (n, "1d20-4") ∧
      parseRollCommand (toString n ++ " 2d6+3") = .ok (n, "2d6+3") ∧
      parseRollCommand (toString n ++ " 2d6 +3") = .ok (n, "2d6+3")) ∧
    parseRollCommand "0" = .error .repeatRange ∧
    parseRollCommand "21" = .error .repeatRange ∧
    parseRollCommand "0 2d6" = .error .repeatRange ∧
    parseRollCommand "2d6+3" = .ok (1, "2d6+3") ∧
    parseRollCommand "d20" = .ok (1, "1d20") ∧
    parseRollCommand "d20+5" = .ok (1, "1d20+5") ∧
    parseRollCommand "D20" = .ok (1, "1d20") ∧
    parseRollCommand "+3 2d6" = .error .putDiceFirst ∧
    parseRollCommand "-2 1d6" = .error .putDiceFirst := by
  refine ⟨rfl, rfl, rfl, rfl, ?_, rfl, rfl, rfl, rfl, rfl, rfl, rfl, rfl, rfl⟩
  decide

/-- Witness for C4: the repeat-count cases at the concrete count 10. -/
theorem parse_roll_command_spec_witness :
    parseRollCommand "10" = .ok (10, "1d20") ∧
    parseRollCommand "10 +2" = .ok (10, "1d20+2") ∧
    parseRollCommand "10 -4" = .ok (10, "1d20-4") ∧
    parseRollCommand "10 2d6+3" = .ok (10, "2d6+3") ∧
    parseRollCommand "10 2d6 +3" = .ok (10, "2d6+3") :=
  parse_roll_command_spec.2.2.2.2.1 10 (by decide)

/-- C10: `parse_char_command` returns 1 on (trimmed-)empty input and the
parsed integer for integer input in [1,20], and fails on everything else;
for an out-of-range integer the internal range error ("Count must be
1-20", here `charCountRange`, visible in `parseCharBody`) is caught by the
function's own `except ValueError` handler, so the propagated error is the
generic "Invalid count: {args}" instead. -/
theorem parse_char_command_spec :
    parseCharCommand "" = .ok 1 ∧
    parseCharCommand "   " = .ok 1 ∧
    (∀ n ∈ Finset.Icc 1 20, parseCharCommand (toString n) = .ok (n : Int)) ∧
    parseCharCommand "+5" = .ok 5 ∧
    parseCharCommand "0" = .error (.invalidCount "0") ∧
    parseCharBody "0" = .error .charCountRange ∧
    parseCharCommand "21" = .error (.invalidCount "21") ∧
    parseCharBody "21" = .error .charCountRange ∧
    parseCharCommand "-3" = .error (.invalidCount "-3") ∧
    parseCharBody "-3" = .error .charCountRange ∧
    parseCharCommand "abc" = .error (.invalidCount "abc") ∧
    parseCharCommand "2.5" = .error (.invalidCount "2.5") := by
  refine ⟨rfl, rfl, ?_, rfl, rfl, rfl, rfl, rfl, rfl, rfl, rfl, rfl⟩
  decide

/-- Witness for C10: the in-range integer case at the concrete count 7. -/
theorem parse_char_command_spec_witness :
    parseCharCommand "7" = .ok (7 : Int) :=
  parse_char_command_spec.2.2.1 7 (by decide)

/-- The sign the `roll_dmg` token loop applies to each dice term, in
encounter order: the pending sign starts at +1, a `+` token sets it to +1,
a `-` token sets it to -1 (a later separator overwrites — reset, not
toggle), and it resets to +1 after every consumed term. -/
def diceSigns : List String → Int → List Int
  | [], _ => []
  | t :: ts, s =>
    if t = "+" then diceSigns ts 1
    else if t = "-" then diceSigns ts (-1)
    else if containsD t then s :: diceSigns ts 1
    else diceSigns ts 1

/-- Dot product of a sign list with a subtotal list. -/
def sdot (a b : List Int) : Int :=
  (List.zipWith (fun x y => x * y) a b).sum

/-- Loop invariant of `roll_dmg`: a successful run's total is the
sign-weighted sum of the component subtotals plus the accumulated flat
modifier. -/
theorem rollDmgLoop_total (ds : Nat → Nat) :
    ∀ (ts : List String) (s : Int) (k : Nat) comps m tot k2,
    rollDmgLoop ds ts s k = .ok (comps, m, tot, k2) →
    tot = sdot (diceSigns ts s) (comps.map (fun c => c.2.2)) + m := by
  intro ts
  induction ts with
  | nil =>
    intro s k comps m tot k2 h
    unfold rollDmgLoop at h
    cases h
    simp [diceSigns, sdot]
  | cons t ts ih =>
    intro s k comps m tot k2 h
    unfold rollDmgLoop at h
    by_cases h1 : t = "+"
    · rw [if_pos h1] at h
      simp only [diceSigns, if_pos h1]
      exact ih 1 k comps m tot k2 h
    · rw [if_neg h1] at h
      by_cases h2 : t = "-"
      · rw [if_pos h2] at h
        simp only [diceSigns, if_neg h1, if_pos h2]
        exact ih (-1) k comps m tot k2 h
      · rw [if_neg h2] at h
        by_cases h3 : containsD t = true
        · rw [if_pos h3] at h
          cases hp : parseDiceOnly t with
          | error e => rw [hp] at h; simp at h
          | ok cnts =>
            rw [hp] at h
            simp only at h
            cases hr : rollDmgLoop ds ts 1 (rollPool ds cnts.2 cnts.1 k).2 with
            | error e => rw [hr] at h; simp at h
            | ok res =>
              obtain ⟨comps1, m1, tot1, k21⟩ := res
              rw [hr] at h
              simp only [Except.ok.injEq, Prod.mk.injEq] at h
              obtain ⟨hcm, hm, htot, hk⟩ := h
              subst hcm; subst hm; subst htot
              simp only [diceSigns, if_neg h1, if_neg h2, if_pos h3,
                List.map_cons, sdot, List.zipWith_cons_cons, List.sum_cons]
              have hrec := ih 1 (rollPool ds cnts.2 cnts.1 k).2 comps1 m1 tot1 k21 hr
              rw [hrec]
              simp only [sdot]
              ring
        · rw [if_neg h3] at h
          cases hp : pyInt t.toList with
          | none => rw [hp] at h; simp at h
          | some v =>
            rw [hp] at h
            cases hr : rollDmgLoop ds ts 1 k with
            | error e => rw [hr] at h; simp at h
            | ok res =>
              obtain ⟨comps1, m1, tot1, k21⟩ := res
              rw [hr] at h
              simp only [Except.ok.injEq, Prod.mk.injEq] at h
              obtain ⟨hcm, hm, htot, hk⟩ := h
              subst hcm; subst hm; subst htot
              simp only [diceSigns, if_neg h1, if_neg h2, if_neg h3]
              have hrec := ih 1 k comps1 m1 tot1 k21 hr
              rw [hrec]
              ring

/-- C2: for every valid expression, `roll_dmg`'s total equals the
sign-weighted sum of the dice-term subtotals plus the flat modifier, where
each dice term's sign is the pending sign at that term — +1 unless the term
is immediately preceded by an unconsumed `-` — and repeated `+`/`-`
separators reset the pending sign (the last sign before the term wins)
rather than toggling it, as the concrete `diceSigns` values and the
end-to-end `1d4--1d4` / `1d4--3` runs show. -/
theorem roll_dmg_total_spec :
    (∀ (ds : Nat → Nat) (expr : String) (k : Nat) (res : DmgResult) (k2 : Nat),
      rollDmg ds expr k = .ok (res, k2) →
      res.total = sdot (diceSigns (tokenize (removeSpaces expr)) 1)
          (res.components.map (fun c => c.2.2)) + res.modifier) ∧
    diceSigns (tokenize (removeSpaces "1d4+2+1d6")) 1 = [1, 1] ∧
    diceSigns (tokenize (removeSpaces "1d4-1d6")) 1 = [1, -1] ∧
    diceSigns (tokenize (removeSpaces "1d4+-1d6")) 1 = [1, -1] ∧
    diceSigns (tokenize (removeSpaces "1d4--1d6")) 1 = [1, -1] ∧
    diceSigns (tokenize (removeSpaces "1d4-+1d6")) 1 = [1, 1] ∧
    diceSigns (tokenize (removeSpaces "-1d4")) 1 = [-1] ∧
    rollDmg (fun _ => 0) "1d4--1d4" 0 =
      .ok ({ expression := "1d4--1d4",
             components := [("1d4", [1], 1), ("1d4", [1], 1)],
             modifier := 0, total := 0 }, 2) ∧
    rollDmg (fun _ => 0) "1d4--3" 0 =
      .ok ({ expression := "1d4--3", components := [("1d4", [1], 1)],
             modifier := -3, total := -2 }, 1) := by
  refine ⟨?_, rfl, rfl, rfl, rfl, rfl, rfl, by decide, by decide⟩
  intro ds expr k res k2 h
  unfold rollDmg at h
  dsimp only at h
  cases hr : rollDmgLoop ds (tokenize (removeSpaces expr)) 1 k with
  | error e => rw [hr] at h; simp at h
  | ok r =>
    obtain ⟨comps, m, tot, k21⟩ := r
    rw [hr] at h
    simp only [Except.ok.injEq, Prod.mk.injEq] at h
    obtain ⟨hres, hk⟩ := h
    subst hres
    exact rollDmgLoop_total ds (tokenize (removeSpaces expr)) 1 k comps m tot k21 hr

/-- Witness for C2: the invariant evaluated on the concrete run of
`roll_dmg("2d6+3")` with the all-zero die stream. -/
theorem roll_dmg_total_spec_witness :
    ({ expression := "2d6+3", components := [("2d6", [1, 1], 2)],
       modifier := 3, total := 5 } : DmgResult).total =
      sdot (diceSigns (tokenize (removeSpaces "2d6+3")) 1)
        (({ expression := "2d6+3", components := [("2d6", [1, 1], 2)],
            modifier := 3, total := 5 } : DmgResult).components.map
          (fun c => c.2.2)) +
      ({ expression := "2d6+3", components := [("2d6", [1, 1], 2)],
         modifier := 3, total := 5 } : DmgResult).modifier :=
  roll_dmg_total_spec.1 (fun _ => 0) "2d6+3" 0
    { expression := "2d6+3", components := [("2d6", [1, 1], 2)],
      modifier := 3, total := 5 } 2 rfl

/-- The net flat modifier the roll loops accumulate: the sign-weighted sum
of the flat integer tokens, with the same pending-sign (reset) rule as
`diceSigns`. -/
def signedIntSum : List String → Int → Int
  | [], _ => 0
  | t :: ts, s =>
    if t = "+" then signedIntSum ts 1
    else if t = "-" then signedIntSum ts (-1)
    else if containsD t then signedIntSum ts 1
    else
      match pyInt t.toList with
      | some v => s * v + signedIntSum ts 1
      | none => signedIntSum ts 1

/-- Loop invariant of `roll_dice`: a successful run's modifier is the
sign-weighted sum of the flat integer tokens. -/
theorem rollDiceLoop_modifier (ds : Nat → Nat) :
    ∀ (ts : List String) (s : Int) (k : Nat) pools m k2,
    rollDiceLoop ds ts s k = .ok (pools, m, k2) →
    m = signedIntSum ts s := by
  intro ts
  induction ts with
  | nil =>
    intro s k pools m k2 h
    unfold rollDiceLoop at h
    cases h
    simp [signedIntSum]
  | cons t ts ih =>
    intro s k pools m k2 h
    unfold rollDiceLoop at h
    by_cases h1 : t = "+"
    · rw [if_pos h1] at h
      simp only [signedIntSum, if_pos h1]
      exact ih 1 k pools m k2 h
    · rw [if_neg h1] at h
      by_cases h2 : t = "-"
      · rw [if_pos h2] at h
        simp only [signedIntSum, if_neg h1, if_pos h2]
        exact ih (-1) k pools m k2 h
      · rw [if_neg h2] at h
        by_cases h3 : containsD t = true
        · rw [if_pos h3] at h
          cases hp : parseDiceOnly t with
          | error e => rw [hp] at h; simp at h
          | ok cnts =>
            rw [hp] at h
            simp only at h
            cases hr : rollDiceLoop ds ts 1 (rollPool ds cnts.2 cnts.1 k).2 with
            | error e => rw [hr] at h; simp at h
            | ok res =>
              obtain ⟨pools1, m1, k21⟩ := res
              rw [hr] at h
              simp only [Except.ok.injEq, Prod.mk.injEq] at h
              obtain ⟨hpl, hm, hk⟩ := h
              subst hm
              simp only [signedIntSum, if_neg h1, if_neg h2, if_pos h3]
              exact ih 1 (rollPool ds cnts.2 cnts.1 k).2 pools1 m1 k21 hr
        · rw [if_neg h3] at h
          cases hp : pyInt t.toList with
          | none => rw [hp] at h; simp at h
          | some v =>
            rw [hp] at h
            cases hr : rollDiceLoop ds ts 1 k with
            | error e => rw [hr] at h; simp at h
            | ok res =>
              obtain ⟨pools1, m1, k21⟩ := res
              rw [hr] at h
              simp only [Except.ok.injEq, Prod.mk.injEq] at h
              obtain ⟨hpl, hm, hk⟩ := h
              subst hm
              simp only [signedIntSum, if_neg h1, if_neg h2, if_neg h3, hp]
              have hrec := ih 1 k pools1 m1 k21 hr
              rw [hrec]
              ring

/-- C3: for every valid expression, `roll_dice` returns modified rolls that
are exactly the raw pools with the net flat modifier added to every die:
`modified_rolls` is `dice_pools` mapped by `(+ modifier)` per die, it has
the same number of pools and the same per-pool lengths, entrywise
`modified_rolls[i][j] = dice_pools[i].rolls[j] + modifier`, and the
modifier is the signed sum of the flat integer terms of the expression. -/
theorem roll_dice_modified_spec :
    ∀ (ds : Nat → Nat) (expr : String) (k : Nat) (res : RollResult) (k2 : Nat),
      rollDice ds expr k = .ok (res, k2) →
      res.modified_rolls =
        res.dice_pools.map (fun p => p.2.map (fun r => r + res.modifier)) ∧
      res.modified_rolls.length = res.dice_pools.length ∧
      (∀ (i : Nat) (pool : String × List Int),
        res.dice_pools[i]? = some pool →
        ∃ mr, res.modified_rolls[i]? = some mr ∧
          mr.length = pool.2.length ∧
          ∀ (j : Nat) (r : Int), pool.2[j]? = some r →
            mr[j]? = some (r + res.modifier)) ∧
      res.modifier = signedIntSum (tokenize (removeSpaces expr)) 1 := by
  intro ds expr k res k2 h
  unfold rollDice at h
  dsimp only at h
  cases hr : rollDiceLoop ds (tokenize (removeSpaces expr)) 1 k with
  | error e => rw [hr] at h; simp at h
  | ok r =>
    obtain ⟨pools, m, k21⟩ := r
    rw [hr] at h
    simp only [Except.ok.injEq, Prod.mk.injEq] at h
    obtain ⟨hres, hk⟩ := h
    subst hres
    refine ⟨rfl, by simp, ?_, rollDiceLoop_modifier ds _ 1 k pools m k21 hr⟩
    intro i pool hi
    refine ⟨pool.2.map (fun r => r + m), ?_, by simp, ?_⟩
    · simp only [List.getElem?_map, hi]
      rfl
    · intro j r hj
      simp only [List.getElem?_map, hj]
      rfl

/-- Witness for C3: the modifier of the concrete run of
`roll_dice("2d6+3")` with the identity die stream is the signed sum of its
flat integer terms. -/
theorem roll_dice_modified_spec_witness :
    ({ expression := "2d6+3", dice_pools := [("2d6", [1, 2])], modifier := 3,
       modified_rolls := [[4, 5]] } : RollResult).modifier =
      signedIntSum (tokenize (removeSpaces "2d6+3")) 1 :=
  (roll_dice_modified_spec (fun n => n) "2d6+3" 0
    { expression := "2d6+3", dice_pools := [("2d6", [1, 2])], modifier := 3,
      modified_rolls := [[4, 5]] } 2 rfl).2.2.2

/-- C6: `roll_with_advantage` evaluates `roll_dice` twice with fresh draws
(the second evaluation continues the die stream exactly where the first
stopped, so the two rolls use disjoint draws) and returns
`(rollA, rollB, chosen, chosenTotal)` where each grand total sums all
modified die values over all pools, `chosen` is `rollA` when
`totalA >= totalB` (ties favor the first roll) and `rollB` otherwise, and
`chosenTotal = max(totalA, totalB) = grandTotal chosen`;
`roll_with_disadvantage` is symmetric with `<=`, `min`, and ties again
favoring the first roll. -/
theorem advantage_disadvantage_spec :
    (∀ (ds : Nat → Nat) (expr : String) (k : Nat) r1 r2 c t k2,
      rollWithAdvantage ds expr k = .ok ((r1, r2, c, t), k2) →
      (∃ k1, rollDice ds expr k = .ok (r1, k1) ∧
        rollDice ds expr k1 = .ok (r2, k2)) ∧
      c = (if grandTotal r1 ≥ grandTotal r2 then r1 else r2) ∧
      t = max (grandTotal r1) (grandTotal r2) ∧
      t = grandTotal c ∧
      (grandTotal r1 = grandTotal r2 → c = r1)) ∧
    (∀ (ds : Nat → Nat) (expr : String) (k : Nat) r1 r2 c t k2,
      rollWithDisadvantage ds expr k = .ok ((r1, r2, c, t), k2) →
      (∃ k1, rollDice ds expr k = .ok (r1, k1) ∧
        rollDice ds expr k1 = .ok (r2, k2)) ∧
      c = (if grandTotal r1 ≤ grandTotal r2 then r1 else r2) ∧
      t = min (grandTotal r1) (grandTotal r2) ∧
      t = grandTotal c ∧
      (grandTotal r1 = grandTotal r2 → c = r1)) := by
  constructor
  · intro ds expr k r1 r2 c t k2 h
    unfold rollWithAdvantage at h
    cases ha : rollDice ds expr k with
    | error e => rw [ha] at h; simp at h
    | ok pa =>
      obtain ⟨ra, ka⟩ := pa
      rw [ha] at h
      dsimp only at h
      cases hb : rollDice ds expr ka with
      | error e => rw [hb] at h; simp at h
      | ok pb =>
        obtain ⟨rb, kb⟩ := pb
        rw [hb] at h
        simp only [Except.ok.injEq, Prod.mk.injEq] at h
        obtain ⟨⟨h1, h2, h3, h4⟩, h5⟩ := h
        subst h1; subst h2; subst h3; subst h4; subst h5
        refine ⟨⟨ka, rfl, hb⟩, rfl, rfl, ?_, ?_⟩
        · by_cases hge : grandTotal rb ≤ grandTotal ra
          · rw [if_pos hge, max_eq_left hge]
          · rw [if_neg hge, max_eq_right (le_of_not_le hge)]
        · intro heq
          rw [if_pos (ge_of_eq heq)]
  · intro ds expr k r1 r2 c t k2 h
    unfold rollWithDisadvantage at h
    cases ha : rollDice ds expr k with
    | error e => rw [ha] at h; simp at h
    | ok pa =>
      obtain ⟨ra, ka⟩ := pa
      rw [ha] at h
      dsimp only at h
      cases hb : rollDice ds expr ka with
      | error e => rw [hb] at h; simp at h
      | ok pb =>
        obtain ⟨rb, kb⟩ := pb
        rw [hb] at h
        simp only [Except.ok.injEq, Prod.mk.injEq] at h
        obtain ⟨⟨h1, h2, h3, h4⟩, h5⟩ := h
        subst h1; subst h2; subst h3; subst h4; subst h5
        refine ⟨⟨ka, rfl, hb⟩, rfl, rfl, ?_, ?_⟩
        · by_cases hle : grandTotal ra ≤ grandTotal rb
          · rw [if_pos hle, min_eq_left hle]
          · rw [if_neg hle, min_eq_right (le_of_not_le hle)]
        · intro heq
          rw [if_pos (le_of_eq heq)]

/-- Witness for C6: a concrete advantage roll of `1d20` on the all-zero
die stream: the chosen total is the grand total of the chosen roll, and the
two rolls come from consecutive segments of the die stream. -/
theorem advantage_disadvantage_spec_witness :
    ((1 : Int) = grandTotal ⟨"1d20", [("1d20", [1])], 0, [[1]]⟩) ∧
    (∃ k1, rollDice (fun _ => 0) "1d20" 0 =
        .ok (⟨"1d20", [("1d20", [1])], 0, [[1]]⟩, k1) ∧
      rollDice (fun _ => 0) "1d20" k1 =
        .ok (⟨"1d20", [("1d20", [1])], 0, [[1]]⟩, 2)) := by
  have h := advantage_disadvantage_spec.1 (fun _ => 0) "1d20" 0
    ⟨"1d20", [("1d20", [1])], 0, [[1]]⟩ ⟨"1d20", [("1d20", [1])], 0, [[1]]⟩
    ⟨"1d20", [("1d20", [1])], 0, [[1]]⟩ 1 2 rfl
  exact ⟨h.2.2.2.1, h.1⟩

/-- `rollPool` advances the draw index by exactly the number of dice. -/
theorem rollPool_snd (ds : Nat → Nat) (sides : Nat) :
    ∀ (c k : Nat), (rollPool ds sides c k).2 = k + c := by
  intro c
  induction c with
  | zero => intro k; simp [rollPool]
  | succ n ih => intro k; simp only [rollPool, ih]; omega

/-- `rollPool` returns one roll per die. -/
theorem rollPool_length (ds : Nat → Nat) (sides : Nat) :
    ∀ (c k : Nat), (rollPool ds sides c k).1.length = c := by
  intro c
  induction c with
  | zero => intro k; simp [rollPool]
  | succ n ih => intro k; simp only [rollPool, List.length_cons, ih]

/-- Every die drawn by `rollPool` lies in `[1, sides]` when `sides ≥ 1`. -/
theorem rollPool_mem_bounds (ds : Nat → Nat) {sides : Nat} (hs : 1 ≤ sides) :
    ∀ (c k : Nat), ∀ x ∈ (rollPool ds sides c k).1, 1 ≤ x ∧ x ≤ (sides : Int) := by
  intro c
  induction c with
  | zero => intro k x hx; simp [rollPool] at hx
  | succ n ih =>
    intro k x hx
    simp only [rollPool, List.mem_cons] at hx
    cases hx with
    | inl hx =>
      subst hx
      have hmod : ds k % sides < sides := Nat.mod_lt _ (by omega)
      unfold rollSingleDie
      omega
    | inr hx => exact ih (k + 1) x hx

/-- Dropping the head of the ascending sort and summing computes the sum
minus the minimum: the head of the sort is a least element of the list. -/
theorem sorted_drop_sum (l : List Int) (hl : l ≠ []) :
    ∃ m, m ∈ l ∧ (∀ x ∈ l, m ≤ x) ∧
      ((List.insertionSort (fun a b => a ≤ b) l).drop 1).sum = l.sum - m := by
  cases hsort : List.insertionSort (fun a b => a ≤ b) l with
  | nil =>
    exfalso
    have hperm := List.perm_insertionSort (fun a b => a ≤ b) l
    rw [hsort] at hperm
    exact hl (hperm.nil_eq.symm)
  | cons a as =>
    have hperm := List.perm_insertionSort (fun a b => a ≤ b) l
    rw [hsort] at hperm
    have hsorted := List.sorted_insertionSort (fun a b => a ≤ b) l
    rw [hsort] at hsorted
    refine ⟨a, hperm.subset (List.mem_cons_self a as), ?_, ?_⟩
    · intro x hx
      have hx2 : x ∈ a :: as := hperm.mem_iff.mpr hx
      cases List.mem_cons.mp hx2 with
      | inl hxa => rw [hxa]
      | inr hxa => exact List.rel_of_sorted_cons hsorted x hxa
    · have hsum : (a :: as).sum = l.sum := hperm.sum_eq
      rw [List.sum_cons] at hsum
      simp only [List.drop_one, List.tail_cons]
      omega

/-- The sum of a list of integers each in `[1, 6]` lies between its length
and six times its length. -/
theorem sum_bounds_one_six (l : List Int) (h : ∀ x ∈ l, 1 ≤ x ∧ x ≤ 6) :
    (l.length : Int) ≤ l.sum ∧ l.sum ≤ 6 * l.length := by
  induction l with
  | nil => simp
  | cons a as ih =>
    obtain ⟨h1, h2⟩ := h a (List.mem_cons_self a as)
    obtain ⟨ih1, ih2⟩ := ih (fun x hx => h x (List.mem_cons_of_mem a hx))
    simp only [List.sum_cons, List.length_cons]
    push_cast
    omega

/-- Each stat produced by the stats loop pairs a fresh 4-die pool with the
sum of the ascending sort minus its head. -/
theorem rollStatsLoop_mem (ds : Nat → Nat) :
    ∀ (n k : Nat), ∀ p ∈ (rollStatsLoop ds n k).1,
      ∃ j, p.1 = (rollPool ds 6 4 j).1 ∧
        p.2 = ((List.insertionSort (fun a b => a ≤ b) p.1).drop 1).sum := by
  intro n
  induction n with
  | zero => intro k p hp; simp [rollStatsLoop] at hp
  | succ n ih =>
    intro k p hp
    simp only [rollStatsLoop, List.mem_cons] at hp
    cases hp with
    | inl hp => subst hp; exact ⟨k, rfl, rfl⟩
    | inr hp => exact ih (rollPool ds 6 4 k).2 p hp

/-- The stats loop produces `n` stats whose raw pools are the consecutive
4-draw segments of the die stream. -/
theorem rollStatsLoop_fst (ds : Nat → Nat) :
    ∀ (n k : Nat),
      (rollStatsLoop ds n k).1.length = n ∧
      (rollStatsLoop ds n k).1.map Prod.fst =
        (List.range n).map (fun i => (rollPool ds 6 4 (k + 4 * i)).1) := by
  intro n
  induction n with
  | zero => intro k; simp [rollStatsLoop]
  | succ n ih =>
    intro k
    obtain ⟨ihl, ihm⟩ := ih (rollPool ds 6 4 k).2
    constructor
    · simp only [rollStatsLoop, List.length_cons, ihl]
    · rw [rollPool_snd] at ihm
      simp only [rollStatsLoop, List.map_cons, List.range_succ_eq_map,
        List.map_map, rollPool_snd]
      congr 1
      rw [ihm]
      apply List.map_congr_left
      intro i hi
      simp only [Function.comp]
      congr 2
      omega

/-- C7: `roll_character_stats` returns exactly 6 stats; each stat pairs the
four raw d6 values, in original draw order (the i-th stat's rolls are the
i-th consecutive 4-draw segment of the die stream), with a total equal to
the sum of all four values minus a minimum value — i.e. the sum of the
three highest — and each total lies in [3, 18],
with every individual die in [1, 6]. -/
theorem roll_character_stats_spec (ds : Nat → Nat) (k : Nat) :
    (rollCharacterStats ds k).1.length = 6 ∧
    (rollCharacterStats ds k).1.map Prod.fst =
      (List.range 6).map (fun i => (rollPool ds 6 4 (k + 4 * i)).1) ∧
    ∀ p ∈ (rollCharacterStats ds k).1,
      p.1.length = 4 ∧ (∀ x ∈ p.1, 1 ≤ x ∧ x ≤ 6) ∧
      (∃ m, m ∈ p.1 ∧ (∀ x ∈ p.1, m ≤ x) ∧ p.2 = p.1.sum - m) ∧
      3 ≤ p.2 ∧ p.2 ≤ 18 := by
  obtain ⟨hlen, hmap⟩ := rollStatsLoop_fst ds 6 k
  refine ⟨hlen, hmap, ?_⟩
  intro p hp
  obtain ⟨j, hj1, hj2⟩ := rollStatsLoop_mem ds 6 k p hp
  have hplen : p.1.length = 4 := by rw [hj1]; exact rollPool_length ds 6 4 j
  have hbounds : ∀ x ∈ p.1, 1 ≤ x ∧ x ≤ 6 := by
    rw [hj1]
    intro x hx
    have hb := @rollPool_mem_bounds ds 6 (by norm_num) 4 j x hx
    exact ⟨hb.1, by exact_mod_cast hb.2⟩
  have hne : p.1 ≠ [] := by
    intro hcon
    rw [hcon] at hplen
    simp at hplen
  obtain ⟨m, hm, hmin, hsum⟩ := sorted_drop_sum p.1 hne
  refine ⟨hplen, hbounds, ⟨m, hm, hmin, by rw [hj2, hsum]⟩, ?_⟩
  have hperm := List.perm_insertionSort (fun a b => a ≤ b) p.1
  have hslen : (List.insertionSort (fun a b => a ≤ b) p.1).length = 4 := by
    rw [hperm.length_eq, hplen]
  have hdlen : ((List.insertionSort (fun a b => a ≤ b) p.1).drop 1).length = 3 := by
    rw [List.length_drop, hslen]
  have hdmem : ∀ x ∈ (List.insertionSort (fun a b => a ≤ b) p.1).drop 1,
      1 ≤ x ∧ x ≤ 6 := by
    intro x hx
    exact hbounds x (hperm.subset (List.drop_subset _ _ hx))
  obtain ⟨hlo, hhi⟩ :=
    sum_bounds_one_six ((List.insertionSort (fun a b => a ≤ b) p.1).drop 1) hdmem
  rw [hdlen] at hlo hhi
  rw [hj2]
  constructor
  · exact le_trans (by norm_num) hlo
  · exact le_trans hhi (by norm_num)

/-- Witness for C7: on the all-zero die stream every stat is
`([1,1,1,1], 3)`, which satisfies the per-stat properties. -/
theorem roll_character_stats_spec_witness :
    (([1, 1, 1, 1], 3) : List Int × Int).1.length = 4 ∧
    (∀ x ∈ (([1, 1, 1, 1], 3) : List Int × Int).1, 1 ≤ x ∧ x ≤ 6) ∧
    (∃ m, m ∈ (([1, 1, 1, 1], 3) : List Int × Int).1 ∧
      (∀ x ∈ (([1, 1, 1, 1], 3) : List Int × Int).1, m ≤ x) ∧
      (([1, 1, 1, 1], 3) : List Int × Int).2 =
        (([1, 1, 1, 1], 3) : List Int × Int).1.sum - m) ∧
    3 ≤ (([1, 1, 1, 1], 3) : List Int × Int).2 ∧
    (([1, 1, 1, 1], 3) : List Int × Int).2 ≤ 18 :=
  (roll_character_stats_spec (fun _ => 0) 0).2.2 ([1, 1, 1, 1], 3) (by decide)

/-- C8: `RollResult.format` applies the extreme-face rule only to pools
whose dice text names 20 sides: a raw face of 20 renders emphasized with
the modifier still applied to the shown total (`**{modified}**` in the
modified path, `**20**` in the unmodified path); a raw face of 1 renders as
`**Nat1**` with the modifier NOT applied, in both the unmodified path
(modifier 0) and the modified path (both the calculation and the result
cell stay `Nat1`); every face of a non-d20 pool renders as a plain number.
The concrete `format` outputs exercise both paths end to end, and
`_format_roll` follows the same rule. -/
theorem format_extreme_faces_spec :
    (∀ (m r rmod : Int), r = 20 →
      formatDieNoMod 20 r = "**20**" ∧
      (formatDieMod 20 m r rmod).2.2 = "**" ++ toString rmod ++ "**" ∧
      (rmod = r + m →
        (formatDieMod 20 m r rmod).2.2 = "**" ++ toString (r + m) ++ "**")) ∧
    (∀ (m rmod : Int),
      formatDieNoMod 20 1 = "**Nat1**" ∧
      (formatDieMod 20 m 1 rmod).2.2 = "**Nat1**" ∧
      (formatDieMod 20 m 1 rmod).2.1 = "(**Nat1**)") ∧
    (∀ (sides : Nat) (m r rmod : Int), sides ≠ 20 →
      formatDieNoMod sides r = toString r ∧
      (formatDieMod sides m r rmod).1 = toString r ∧
      (formatDieMod sides m r rmod).2.2 = toString rmod) ∧
    getSides "1d20" = 20 ∧ getSides "2d6" = 6 ∧ getSides "2D6" = 6 ∧
    RollResult.format ⟨"1d20", [("1d20", [20])], 0, [[20]]⟩ =
      "1D20 Result - (**20**)" ∧
    RollResult.format ⟨"1d20", [("1d20", [1])], 0, [[1]]⟩ =
      "1D20 Result - (**Nat1**)" ∧
    RollResult.format ⟨"1d20+3", [("1d20", [20])], 3, [[23]]⟩ =
      "1D20 Result - (**20**) = (**20**+3) = (**23**)" ∧
    RollResult.format ⟨"1d20+3", [("1d20", [1])], 3, [[4]]⟩ =
      "1D20 Result - (**Nat1**) = (**Nat1**) = (**Nat1**)" ∧
    RollResult.format ⟨"1d20-2", [("1d20", [20])], -2, [[18]]⟩ =
      "1D20 Result - (**20**) = (**20**-2) = (**18**)" ∧
    RollResult.format ⟨"2d6+2", [("2d6", [3, 6])], 2, [[5, 8]]⟩ =
      "2D6 Result - (3, 6) = (3+2) (6+2) = (5, 8)" ∧
    formatRollSingle 20 23 20 = "**23**" ∧
    formatRollSingle 1 4 20 = "**Nat1**" ∧
    formatRollSingle 3 5 6 = "5" := by
  refine ⟨?_, ?_, ?_, rfl, rfl, rfl, rfl, rfl, rfl, rfl, rfl, rfl, rfl, rfl, rfl⟩
  · intro m r rmod hr
    subst hr
    refine ⟨by norm_num [formatDieNoMod], by norm_num [formatDieMod], ?_⟩
    intro hrm
    subst hrm
    norm_num [formatDieMod]
  · intro m rmod
    refine ⟨by norm_num [formatDieNoMod], ?_, ?_⟩ <;> norm_num [formatDieMod]
  · intro sides m r rmod hs
    refine ⟨?_, ?_, ?_⟩ <;> simp [formatDieNoMod, formatDieMod, hs]

/-- Witness for C8: the d20 nat-20 rule at modifier 3 with shown total 23,
and the non-d20 plain rule for a d6 face. -/
theorem format_extreme_faces_spec_witness :
    (formatDieMod 20 3 20 23).2.2 = "**" ++ toString (23 : Int) ++ "**" ∧
    (formatDieMod 6 2 3 5).2.2 = toString (5 : Int) := by
  have h1 := format_extreme_faces_spec.1 3 20 23 rfl
  have h2 := format_extreme_faces_spec.2.2.1 6 2 3 5 (by norm_num)
  exact ⟨h1.2.1, h2.2.2⟩

end DnDice
